import Mathlib

/-!
Shallow embedding of the payment-provider core in `src/ethereumProvider.js`
(account model) and `src/bitcoinProvider.js` (output model).

Amounts are modelled as rationals: the code manipulates them as Big.js
arbitrary-precision decimals, and every operation used (plus, minus, times,
div by powers of ten) is exact rational arithmetic.  Addresses, transaction
ids and hashes are strings.  Network and node interaction is made explicit:
each embedded operation takes the chain response as an argument and is a pure
function of it, exactly as the surrounding JS is a pure function of the
resolved HTTP responses.

`commonProvider` and `utils` are imported by both providers but are not among
the source files; the definitions taken from them (`walletsSelect`, the
membership view of `toHashMap`) are modelled from the spec and marked as such
in their doc comments.
-/

/-- JS `String.prototype.toLowerCase` on the ASCII addresses/hashes handled
here: lower-case every character. -/
def strLower (s : String) : String := ⟨s.data.map Char.toLower⟩

namespace Eth

/-- One entry of the `toAddresses` argument of the account-model
`preparePayment` (src/ethereumProvider.js): a payment request with an id, a
destination address and an amount in ether. -/
structure Request where
  id : String
  toAddress : String
  amount : ℚ
deriving DecidableEq, Repr

/-- A reserve wallet together with its reconciled spendable balance in ether,
as produced by `getReserveWithSpentBalances`.  The private key plays no role
in the embedded logic and is omitted. -/
structure Wallet where
  address : String
  balance : ℚ
deriving DecidableEq, Repr

/-- Balance reconciliation from `getReserveWithSpentBalances`
(src/ethereumProvider.js lines 160-172): `balance` is the wallet's confirmed
on-chain balance and `spent` the caller-supplied already-committed amount for
this wallet, `none` when the wallet has no entry in `spentBalances`.  The
source guards with JS truthiness (`spentBalances[wallet.address] ? balance
.minus(...) : balance`), so a present numeric amount of `0` is falsy and the
balance is returned unchanged in that case as well. -/
def reconcile (balance : ℚ) (spent : Option ℚ) : ℚ :=
  match spent with
  | none => balance
  | some p => if p = 0 then balance else balance - p

/-- Modelled from the spec: `walletsSelect` lives in `commonProvider`, which
is not among the source files.  Spec §4.3: select the first wallet, in
caller-supplied order, whose spendable balance (net of amounts already
assigned in this batch) is at least the requested amount.  `assignFirst`
returns the chosen wallet's address together with the wallet list in which
that wallet's remaining capacity is decremented by the amount, or `none` when
no wallet qualifies. -/
def assignFirst (amount : ℚ) : List Wallet → Option (String × List Wallet)
  | [] => none
  | w :: ws =>
    if amount ≤ w.balance then
      some (w.address, { w with balance := w.balance - amount } :: ws)
    else
      match assignFirst amount ws with
      | none => none
      | some (a, ws2) => some (a, w :: ws2)

/-- Modelled from the spec: the account-model allocator of `commonProvider`
(spec §4.3).  Requests are processed in caller-supplied order; each is
assigned via `assignFirst` to the first wallet that can fully fund it,
decrementing that wallet's remaining capacity for the rest of the batch; a
request no wallet can fully fund is reported failed, never split.  Returns
the success list (assigned wallet address paired with the request) and the
failed list. -/
def walletsSelect : List Wallet → List Request → List (String × Request) × List Request
  | _, [] => ([], [])
  | wallets, r :: rs =>
    match assignFirst r.amount wallets with
    | some (a, wallets2) =>
      let rest := walletsSelect wallets2 rs
      ((a, r) :: rest.1, rest.2)
    | none =>
      let rest := walletsSelect wallets rs
      (rest.1, r :: rest.2)

/-- The per-transaction network fee in ether for a simple transfer
(src/ethereumProvider.js line 213): `gasPrice` in wei times
`0.000000000000021`, i.e. `gasPrice * 21000 / 1e18`. -/
def transferFee (gasPrice : ℚ) : ℚ := gasPrice * (21000 / 1000000000000000000)

/-- Result of the account-model `preparePayment`, restricted to the fields
the allocation logic produces (the fetched per-wallet nonce map is carried
separately into `signTransaction`). -/
structure PrepareResult where
  fee : ℚ
  successTransactions : List (String × Request)
  failedTransactions : List Request
deriving DecidableEq, Repr

/-- Pure core of the account-model `preparePayment`
(src/ethereumProvider.js lines 202-235): `wallets` is the reconciled reserve
list from `getReserveWithSpentBalances` and `gasPrice` the fetched gas price
in wei.  The fee is computed once; requests (with the fee attached, amounts
untouched) go through `walletsSelect`; each successful transaction's recorded
amount is then the requested amount minus the fee (line 233). -/
def preparePayment (wallets : List Wallet) (toAddresses : List Request)
    (gasPrice : ℚ) : PrepareResult :=
  let fee := transferFee gasPrice
  let selected := walletsSelect wallets toAddresses
  { fee := fee
    successTransactions :=
      selected.1.map (fun p => (p.1, { p.2 with amount := p.2.amount - fee }))
    failedTransactions := selected.2 }

/-- The fields of the unsigned transfer built by `signTransaction`
(src/ethereumProvider.js lines 260-269); elliptic-curve signing and RLP
serialization are external and not modelled. -/
structure UnsignedTx where
  nonce : ℕ
  gasPrice : ℚ
  value : ℚ
  toAddress : String
  gas : ℕ
deriving DecidableEq, Repr

/-- Sequencing part of the account-model `signTransaction`
(src/ethereumProvider.js lines 254-283): read the nonce for `wallet.address`
from `data.wallets`, build the transfer with it (gas 21000), and return the
nonce map in which that wallet's nonce is set to `nonce + 1` (`R.assocPath`),
all other entries unchanged.  The nonce map is embedded as a total function
from address to nonce (the source looks the address up in the object built by
`preparePayment`, which has an entry for every reserve wallet). -/
def signTransaction (walletAddress toAddress : String) (amount gasPrice : ℚ)
    (wallets : String → ℕ) : UnsignedTx × (String → ℕ) :=
  let nonce := wallets walletAddress
  (⟨nonce, gasPrice, amount, toAddress, 21000⟩,
   fun a => if a = walletAddress then nonce + 1 else wallets a)

/-- Sequential signing of a batch of (destination, amount) transfers from one
wallet, each call fed the previous call's returned nonce map — the usage the
spec prescribes for the sequencing state. -/
def signBatch (walletAddress : String) (gasPrice : ℚ) (wallets : String → ℕ) :
    List (String × ℚ) → List UnsignedTx × (String → ℕ)
  | [] => ([], wallets)
  | t :: ts =>
    let step := signTransaction walletAddress t.1 t.2 gasPrice wallets
    let rest := signBatch walletAddress gasPrice step.2 ts
    (step.1 :: rest.1, rest.2)

/-- A raw transaction as returned by the explorer API to
`getReceivedTransactions` (src/ethereumProvider.js): the fields the
classifier reads.  `value` and `gasPrice` are in wei. -/
structure RawTx where
  hash : String
  fromAddr : String
  toAddr : String
  input : String
  value : ℚ
  gasPrice : ℚ
  confirmations : ℕ
deriving DecidableEq, Repr

/-- A classified deposit (src/ethereumProvider.js lines 126-134).
`reserveId`, a lookup in the provider's reserve-wallet table held outside
these files, is omitted. -/
structure Deposit where
  reserveAddress : String
  fromAddress : String
  amount : ℚ
  fee : ℚ
  confirmations : ℕ
  hash : String
deriving DecidableEq, Repr

/-- The deposit filter of the account-model `getReceivedTransactions`
(src/ethereumProvider.js lines 118-125): empty call data (`input === '0x'`)
and recipient (`to`, lower-cased) equal to the reserve address.  These are
the only two conditions the source applies. -/
def ethDepositFilter (reserveAddress : String) (tx : RawTx) : Bool :=
  tx.input == "0x" && strLower tx.toAddr == reserveAddress

/-- The mapping step of `getReceivedTransactions` (src/ethereumProvider.js
lines 126-134): amount in ether (`value / 1e18`), fee `gasPrice *
0.000000000000021`, lower-cased sender and hash. -/
def ethToDeposit (reserveAddress : String) (tx : RawTx) : Deposit :=
  { reserveAddress := reserveAddress
    fromAddress := strLower tx.fromAddr
    amount := tx.value / 1000000000000000000
    fee := transferFee tx.gasPrice
    confirmations := tx.confirmations
    hash := strLower tx.hash }

/-- Classifier body of `getReceivedTransactions`: filter then map, with the
reserve address already lower-cased. -/
def ethClassify (reserveAddress : String) (txs : List RawTx) : List Deposit :=
  (txs.filter (ethDepositFilter reserveAddress)).map (ethToDeposit reserveAddress)

/-- The account-model `getReceivedTransactions` (src/ethereumProvider.js
lines 110-135) with the chain interaction made explicit: `response` is the
outcome of the HTTP request, `Except.error` when the transport fails (the
axios promise rejects and the rejection propagates to the caller), otherwise
the `result` field, which the API may set to `null` (`Option.none`).  A null
result returns the empty list (line 116); otherwise the classifier runs
against the queried address lower-cased (line 112). -/
def getReceivedTransactions (address : String)
    (response : Except String (Option (List RawTx))) :
    Except String (List Deposit) :=
  match response with
  | .error e => .error e
  | .ok none => .ok []
  | .ok (some txs) => .ok (ethClassify (strLower address) txs)

/-- The transaction receipt fields read by `isConfirmedTransactionByHash`
(src/ethereumProvider.js lines 87-96). -/
structure Receipt where
  status : Bool
  blockNumber : ℤ
deriving DecidableEq, Repr

/-- The account-model `isConfirmedTransactionByHash`
(src/ethereumProvider.js lines 87-96): the receipt may be absent (`tx` is
null for an unknown hash, and `tx && ...` is then falsy); otherwise the
execution status must be success and the confirmation distance
`blockNumber - tx.blockNumber` must reach the configured threshold. -/
def isConfirmedTransaction (receipt : Option Receipt) (blockNumber : ℤ)
    (countConfirmations : ℤ) : Bool :=
  match receipt with
  | none => false
  | some tx => tx.status && decide (countConfirmations ≤ blockNumber - tx.blockNumber)

end Eth

namespace Btc

/-- One input of a raw output-model transaction: the fields `vin` entries
contribute to classification (`addr`, `value`). -/
structure TxIn where
  addr : String
  value : ℚ
deriving DecidableEq, Repr

/-- One output of a raw output-model transaction: the address list of its
`scriptPubKey` and its value.  A missing `addresses` field and an empty list
are both embedded as `[]`; the classifier rejects either (a missing field
through `!addresses`, an empty list through `length !== 1`), and no other
code path observes the difference. -/
structure TxOut where
  addresses : List String
  value : ℚ
deriving DecidableEq, Repr

/-- A raw transaction as returned by the explorer's paginated history to
`getReceivedTransactions` (src/bitcoinProvider.js). -/
structure RawTx where
  txid : String
  vin : List TxIn
  vout : List TxOut
  confirmations : ℕ
deriving DecidableEq, Repr

/-- A classified output-model deposit (src/bitcoinProvider.js
lines 142-168). -/
structure Deposit where
  fromAddress : String
  reserveAddress : String
  amount : ℚ
  fee : ℚ
  confirmations : ℕ
  hash : String
deriving DecidableEq, Repr

/-- `R.uniqBy key` over a list, keeping the first occurrence of every key, as
Ramda does (src/bitcoinProvider.js line 129 deduplicates the three fetched
pages by `txid`). -/
def uniqByAux {α β : Type} [DecidableEq β] (key : α → β) (seen : List β) :
    List α → List α
  | [] => []
  | a :: l =>
    if key a ∈ seen then uniqByAux key seen l
    else a :: uniqByAux key (key a :: seen) l

/-- `R.uniqBy` with no keys seen yet. -/
def uniqBy {α β : Type} [DecidableEq β] (key : α → β) (l : List α) : List α :=
  uniqByAux key [] l

/-- The deposit filter of the output-model `getReceivedTransactions`
(src/bitcoinProvider.js lines 130-141).  `toHashMap(tx.vin, 'addr', true)`
keys the inputs by address, so its keys are the distinct input addresses; the
transaction is rejected when the reserve address is among them or when there
is not exactly one of them, and every output must carry exactly one
address. -/
def btcDepositFilter (reserveAddress : String) (tx : RawTx) : Bool :=
  let inputAddrs := (tx.vin.map (·.addr)).dedup
  !(inputAddrs.contains reserveAddress) && inputAddrs.length == 1
    && tx.vout.all (fun out => out.addresses.length == 1)

/-- The mapping step of `getReceivedTransactions` (src/bitcoinProvider.js
lines 142-168): amount = sum of the output values addressed to the reserve,
fee = total input value minus total output value, sender = address of the
first input. -/
def btcToDeposit (reserveAddress : String) (tx : RawTx) : Deposit :=
  let amount := tx.vout.foldl
    (fun value out =>
      if out.addresses.getD 0 "" = reserveAddress then value + out.value else value)
    0
  let valueIn := tx.vin.foldl (fun value inp => value + inp.value) 0
  let valueOut := tx.vout.foldl (fun value out => value + out.value) 0
  { fromAddress := (tx.vin.map (·.addr)).getD 0 ""
    reserveAddress := reserveAddress
    amount := amount
    fee := valueIn - valueOut
    confirmations := tx.confirmations
    hash := tx.txid }

/-- The output-model `getReceivedTransactions` (src/bitcoinProvider.js
lines 119-170) with the chain interaction made explicit: `pages` is the list
of transaction lists fetched from the paginated history (three pages in the
source).  Flatten, deduplicate by txid, filter, map. -/
def getReceivedTransactions (reserveAddress : String)
    (pages : List (List RawTx)) : List Deposit :=
  ((uniqBy (·.txid) pages.flatten).filter (btcDepositFilter reserveAddress)).map
    (btcToDeposit reserveAddress)

/-- The output-model `isConfirmedTransactionByHash` (src/bitcoinProvider.js
lines 97-105): `R.pathSatisfies (R.lte threshold) ['data','confirmations']`,
i.e. the fetched transaction's confirmation count, when present, is at least
the configured threshold; an absent count satisfies nothing. -/
def isConfirmedTransaction (confirmations : Option ℤ) (countConfirmations : ℤ) :
    Bool :=
  match confirmations with
  | none => false
  | some c => decide (countConfirmations ≤ c)

/-- One entry of the `toAddresses` argument of the output-model
`preparePayment` (src/bitcoinProvider.js): id, destination address, amount in
coins. -/
structure Request where
  id : String
  address : String
  amount : ℚ
deriving DecidableEq, Repr

/-- Stable insertion of a request into an ascending run: the new element goes
after every element it does not strictly exceed in priority, i.e. before the
first element of strictly greater amount.  Together with `sortByAmount` this
embeds `R.sort((a, b) => (a.amount > b.amount ? 1 : -1), toAddresses)`
(src/bitcoinProvider.js line 205), a stable sort whose comparator puts `a`
after `b` exactly when `a.amount > b.amount`. -/
def insertByAmount (x : Request) : List Request → List Request
  | [] => [x]
  | y :: ys => if x.amount < y.amount then x :: y :: ys else y :: insertByAmount x ys

/-- Stable ascending-by-amount sort of the payment requests
(src/bitcoinProvider.js line 205). -/
def sortByAmount (l : List Request) : List Request :=
  l.foldl (fun acc x => insertByAmount x acc) []

/-- Truncation of a rational toward zero: Big.js rounding mode 0
(`Big.roundDown`), the mode passed as `round(0, 0)` in the source. -/
def truncToZero (q : ℚ) : ℤ := if 0 ≤ q then ⌊q⌋ else ⌈q⌉

/-- Conversion of a major-unit amount to integer satoshi
(src/bitcoinProvider.js line 210): `Big(amount).times(1e8).round(0, 0)`, then
`parseInt` of the resulting integer string, which is exact. -/
def toSatoshi (amount : ℚ) : ℤ := truncToZero (amount * 100000000)

/-- Modelled from the spec (§7): the rounding rule the spec prescribes for
the minor-unit boundary, round half away from zero, stated here for
comparison with the source's `toSatoshi`. -/
def toSatoshiHalfAwayFromZero (amount : ℚ) : ℤ :=
  if 0 ≤ amount * 100000000 then ⌊amount * 100000000 + 1 / 2⌋
  else ⌈amount * 100000000 - 1 / 2⌉

/-- Conversion of integer satoshi back to a major-unit amount (the `div(1e8)`
direction used in `signTransaction`'s fee computation). -/
def fromSatoshi (v : ℤ) : ℚ := (v : ℚ) / 100000000

/-- One prepared output as built by `preparePayment`
(src/bitcoinProvider.js lines 206-211): the request's fields plus the
satoshi value. -/
structure TxOutput where
  id : String
  amount : ℚ
  toAddress : String
  value : ℤ
deriving DecidableEq, Repr

/-- The transaction list handed to coin selection (src/bitcoinProvider.js
lines 205-211): requests sorted ascending by amount, each mapped to a
prepared output whose `value` is the amount converted to satoshi. -/
def btcTransactions (toAddresses : List Request) : List TxOutput :=
  (sortByAmount toAddresses).map
    (fun r => { id := r.id, amount := r.amount, toAddress := r.address,
                value := toSatoshi r.amount })

/-- An unspent output as returned by the node (src/bitcoinProvider.js
`getUnspentOutputs`): the fields `preparePayment` reads. -/
structure Utxo where
  txid : String
  vout : ℕ
  satoshis : ℤ
  confirmations : ℤ
deriving DecidableEq, Repr

/-- One already-consumed output supplied by the caller in `spentOutputs`:
its (txid, outputIndex) identity. -/
structure SpentOutput where
  txid : String
  vout : ℕ
deriving DecidableEq, Repr

/-- A candidate input as handed to coin selection: the unspent output with
the `value` field attached (`R.assoc('value', output.satoshis, output)`,
src/bitcoinProvider.js line 215). -/
structure CandidateInput where
  txid : String
  vout : ℕ
  satoshis : ℤ
  confirmations : ℤ
  value : ℤ
deriving DecidableEq, Repr

/-- Membership of an unspent output in the caller-supplied already-consumed
set.  Modelled from the spec: the lookup key is built by `toHashMap` from
`utils`, which is not among the source files; spec §3 keys the consumed set
by `(txid, outputIndex)`, so membership holds exactly when some supplied
spent output has this output's txid and output index. -/
def isSpent (spent : List SpentOutput) (o : Utxo) : Bool :=
  spent.any (fun s => s.txid == o.txid && s.vout == o.vout)

/-- The candidate filter and transform of `preparePayment`
(src/bitcoinProvider.js lines 213-216): keep an unspent output exactly when
its confirmation count is strictly positive and it is not in the
already-consumed set, then attach its satoshi value as `value`. -/
def transformedUtxo (utxo : List Utxo) (spent : List SpentOutput) :
    List CandidateInput :=
  (utxo.filter (fun o => 0 < o.confirmations && !(isSpent spent o))).map
    (fun o => { txid := o.txid, vout := o.vout, satoshis := o.satoshis,
                confirmations := o.confirmations, value := o.satoshis })

/-- Pure core of the output-model `preparePayment` (src/bitcoinProvider.js
lines 195-219): from the fetched unspent outputs and the caller's requests
and spent set, the pair of arguments handed to `coinSelect` (which lives in
`commonProvider`, outside the source files): the sorted, converted
transaction list and the filtered candidate inputs. -/
def preparePaymentArgs (toAddresses : List Request) (utxo : List Utxo)
    (spent : List SpentOutput) : List TxOutput × List CandidateInput :=
  (btcTransactions toAddresses, transformedUtxo utxo spent)

end Btc

/-! ## Helper lemmas -/

theorem eth_walletsSelect_success_subset (rs : List Eth.Request) :
    ∀ (wallets : List Eth.Wallet) (p : String × Eth.Request),
      p ∈ (Eth.walletsSelect wallets rs).1 → p.2 ∈ rs := by
  induction rs with
  | nil => intro wallets p hp; simp [Eth.walletsSelect] at hp
  | cons r rs ih =>
    intro wallets p hp
    rw [Eth.walletsSelect] at hp
    cases h : Eth.assignFirst r.amount wallets with
    | none =>
      rw [h] at hp
      simp only [List.mem_cons] at hp ⊢
      exact Or.inr (ih wallets p hp)
    | some q =>
      rw [h] at hp
      simp only [List.mem_cons] at hp ⊢
      rcases hp with hp | hp
      · exact Or.inl (by rw [hp])
      · exact Or.inr (ih q.2 p hp)

theorem eth_walletsSelect_partition (rs : List Eth.Request) :
    ∀ wallets : List Eth.Wallet,
      ((Eth.walletsSelect wallets rs).1.map Prod.snd
        ++ (Eth.walletsSelect wallets rs).2).Perm rs := by
  induction rs with
  | nil => intro wallets; simp [Eth.walletsSelect]
  | cons r rs ih =>
    intro wallets
    rw [Eth.walletsSelect]
    cases h : Eth.assignFirst r.amount wallets with
    | none =>
      simpa using List.perm_middle.trans ((ih wallets).cons r)
    | some q =>
      simpa using (ih q.2).cons r

theorem btc_insertByAmount_perm (x : Btc.Request) (l : List Btc.Request) :
    (Btc.insertByAmount x l).Perm (x :: l) := by
  induction l with
  | nil => exact List.Perm.refl _
  | cons y ys ih =>
    rw [Btc.insertByAmount]
    split
    · exact List.Perm.refl _
    · exact (ih.cons y).trans (List.Perm.swap x y ys)

theorem btc_insertByAmount_sorted (x : Btc.Request) (l : List Btc.Request)
    (hl : l.Pairwise (fun a b => a.amount ≤ b.amount)) :
    (Btc.insertByAmount x l).Pairwise (fun a b => a.amount ≤ b.amount) := by
  induction l with
  | nil => simp [Btc.insertByAmount]
  | cons y ys ih =>
    rcases List.pairwise_cons.mp hl with ⟨hy, hys⟩
    rw [Btc.insertByAmount]
    split
    · rename_i hxy
      refine List.pairwise_cons.mpr ⟨?_, hl⟩
      intro b hb
      rcases List.mem_cons.mp hb with hb | hb
      · exact hb ▸ le_of_lt hxy
      · exact (le_of_lt hxy).trans (hy b hb)
    · rename_i hxy
      refine List.pairwise_cons.mpr ⟨?_, ih hys⟩
      intro b hb
      rcases List.mem_cons.mp ((btc_insertByAmount_perm x ys).mem_iff.mp hb) with hb | hb
      · exact hb ▸ not_lt.mp hxy
      · exact hy b hb

theorem btc_sort_aux_perm (l : List Btc.Request) :
    ∀ acc : List Btc.Request,
      (List.foldl (fun acc x => Btc.insertByAmount x acc) acc l).Perm (acc ++ l) := by
  induction l with
  | nil => intro acc; simp
  | cons x xs ih =>
    intro acc
    have h1 := ih (Btc.insertByAmount x acc)
    have h2 : (Btc.insertByAmount x acc ++ xs).Perm (acc ++ x :: xs) :=
      (((btc_insertByAmount_perm x acc).append_right xs).trans List.perm_middle.symm)
    simpa using h1.trans h2

theorem btc_sortByAmount_perm (l : List Btc.Request) : (Btc.sortByAmount l).Perm l := by
  simpa [Btc.sortByAmount] using btc_sort_aux_perm l []

theorem btc_sort_aux_sorted (l : List Btc.Request) :
    ∀ acc : List Btc.Request, acc.Pairwise (fun a b => a.amount ≤ b.amount) →
      (List.foldl (fun acc x => Btc.insertByAmount x acc) acc l).Pairwise
        (fun a b => a.amount ≤ b.amount) := by
  induction l with
  | nil => intro acc h; simpa using h
  | cons x xs ih =>
    intro acc h
    exact ih _ (btc_insertByAmount_sorted x acc h)

theorem btc_sortByAmount_sorted (l : List Btc.Request) :
    (Btc.sortByAmount l).Pairwise (fun a b => a.amount ≤ b.amount) := by
  exact btc_sort_aux_sorted l [] (List.Pairwise.nil)

theorem btc_uniqByAux_subset {α β : Type} [DecidableEq β] (key : α → β)
    (l : List α) :
    ∀ (seen : List β) (a : α), a ∈ Btc.uniqByAux key seen l → a ∈ l := by
  induction l with
  | nil => intro seen a ha; simp [Btc.uniqByAux] at ha
  | cons x xs ih =>
    intro seen a ha
    rw [Btc.uniqByAux] at ha
    by_cases h : key x ∈ seen
    · rw [if_pos h] at ha
      exact List.mem_cons.mpr (Or.inr (ih seen a ha))
    · rw [if_neg h] at ha
      rcases List.mem_cons.mp ha with ha | ha
      · exact List.mem_cons.mpr (Or.inl ha)
      · exact List.mem_cons.mpr (Or.inr (ih _ a ha))

/-! ## Claim theorems -/

/-- C1: account-model allocation assigns each payment request, processed in
caller-supplied order, to the first wallet in caller-supplied order whose
spendable balance net of amounts already assigned in the batch is at least
the requested amount, decrementing that wallet's remaining capacity; a
request no wallet can fully fund is reported failed, never split, so success
and failed requests together are exactly the input requests.  Concretely, for
wallets with balances [5, 3] and requests A(4), B(2), C(3), the result is
A on wallet1 and B on wallet2 with C failed. -/
theorem eth_allocation_first_fit :
    (∀ (wallets : List Eth.Wallet) (requests : List Eth.Request),
        (((Eth.walletsSelect wallets requests).1.map Prod.snd)
          ++ (Eth.walletsSelect wallets requests).2).Perm requests)
    ∧ Eth.walletsSelect [⟨"wallet1", 5⟩, ⟨"wallet2", 3⟩]
        [⟨"A", "destA", 4⟩, ⟨"B", "destB", 2⟩, ⟨"C", "destC", 3⟩]
      = ([("wallet1", ⟨"A", "destA", 4⟩), ("wallet2", ⟨"B", "destB", 2⟩)],
         [⟨"C", "destC", 3⟩]) := by
  constructor
  · intro wallets requests
    exact eth_walletsSelect_partition requests wallets
  · norm_num [Eth.walletsSelect, Eth.assignFirst]

/-- C2: the account-model signTransaction reads the wallet's current nonce
from the supplied sequencing state, uses it in the built transfer, and
returns a state in which exactly that wallet's nonce is incremented by one;
signing three transfers sequentially from one wallet starting at nonce 7,
each call fed the previous call's returned state, uses nonces 7, 8, 9
exactly once each. -/
theorem eth_sign_nonce_sequencing :
    (∀ (w dest : String) (amt gp : ℚ) (st : String → ℕ),
        (Eth.signTransaction w dest amt gp st).1.nonce = st w
        ∧ (Eth.signTransaction w dest amt gp st).2 w = st w + 1
        ∧ ∀ a, a ≠ w → (Eth.signTransaction w dest amt gp st).2 a = st a)
    ∧ ((Eth.signBatch "w1" 9 (fun _ => 7)
          [("d1", 1), ("d2", 2), ("d3", 3)]).1.map (fun tx => tx.nonce) = [7, 8, 9]
        ∧ (Eth.signBatch "w1" 9 (fun _ => 7)
            [("d1", 1), ("d2", 2), ("d3", 3)]).2 "w1" = 10
        ∧ ([7, 8, 9] : List ℕ).Nodup) := by
  refine ⟨fun w dest amt gp st => ⟨rfl, ?_, fun a ha => ?_⟩, ?_, ?_, by decide⟩
  · simp [Eth.signTransaction]
  · simp [Eth.signTransaction, ha]
  · simp [Eth.signBatch, Eth.signTransaction]
  · simp [Eth.signBatch, Eth.signTransaction]

/-- C3: balance reconciliation returns confirmedBalance minus the
caller-supplied pending spend, with no clamping at zero, and an absent or
zero pending spend leaves the confirmed balance unchanged. -/
theorem eth_reconcile_spec :
    ∀ balance pending : ℚ,
      Eth.reconcile balance (some pending) = balance - pending
      ∧ Eth.reconcile balance none = balance
      ∧ Eth.reconcile balance (some 0) = balance := by
  intro balance pending
  refine ⟨?_, rfl, by simp [Eth.reconcile]⟩
  rw [Eth.reconcile]
  by_cases h : pending = 0
  · simp [h]
  · simp [h]

/-- C7: isConfirmedTransactionByHash is true iff confirmations reach the
configured threshold — account model: the receipt exists, its execution
status is success and chainHeight - txBlockHeight ≥ threshold; output model:
the reported confirmation count is ≥ threshold — and the boundary case equal
to the threshold is confirmed while threshold - 1 is not. -/
theorem confirmation_threshold_spec :
    (∀ (st : Bool) (bn height t : ℤ),
        (Eth.isConfirmedTransaction (some ⟨st, bn⟩) height t = true
          ↔ st = true ∧ t ≤ height - bn)
        ∧ Eth.isConfirmedTransaction none height t = false)
    ∧ (∀ c t : ℤ,
        (Btc.isConfirmedTransaction (some c) t = true ↔ t ≤ c)
        ∧ Btc.isConfirmedTransaction none t = false)
    ∧ (∀ bn t : ℤ,
        Eth.isConfirmedTransaction (some ⟨true, bn⟩) (bn + t) t = true
        ∧ Eth.isConfirmedTransaction (some ⟨true, bn⟩) (bn + t - 1) t = false
        ∧ Eth.isConfirmedTransaction (some ⟨false, bn⟩) (bn + t) t = false
        ∧ Btc.isConfirmedTransaction (some t) t = true
        ∧ Btc.isConfirmedTransaction (some (t - 1)) t = false) := by
  refine ⟨fun st bn height t => ⟨?_, rfl⟩, fun c t => ⟨?_, rfl⟩, fun bn t => ?_⟩
  · simp [Eth.isConfirmedTransaction]
  · simp [Btc.isConfirmedTransaction]
  · refine ⟨?_, ?_, ?_, ?_, ?_⟩ <;>
      simp [Eth.isConfirmedTransaction, Btc.isConfirmedTransaction]
    all_goals omega

/-- C9 counterexample: the source's major-to-minor conversion
(`Big(amount).times(1e8).round(0, 0)`) truncates toward zero, not half away
from zero: at 1.5 satoshi worth of coin it yields 1 where the
half-away-from-zero rule yields 2. -/
theorem btc_toSatoshi_not_half_away :
    Btc.toSatoshi (3 / 200000000) = 1
    ∧ Btc.toSatoshiHalfAwayFromZero (3 / 200000000) = 2
    ∧ Btc.toSatoshi (3 / 200000000)
        ≠ Btc.toSatoshiHalfAwayFromZero (3 / 200000000) := by
  refine ⟨?_, ?_, ?_⟩ <;>
    norm_num [Btc.toSatoshi, Btc.truncToZero, Btc.toSatoshiHalfAwayFromZero]

/-- C9 (amended): converting a major-unit amount to integer satoshi applies a
single rounding rule, truncation toward zero (Big.js ROUND_DOWN), exactly
once at the minor-unit boundary — the value attached to every prepared output
is exactly `toSatoshi` of its amount — and the major-to-minor-to-major round
trip is exact for every amount representable at the currency's 8-decimal
precision. -/
theorem btc_toSatoshi_trunc_roundtrip :
    (∀ l : List Btc.Request,
        (Btc.btcTransactions l).map (fun t => t.value)
          = (Btc.sortByAmount l).map (fun r => Btc.toSatoshi r.amount))
    ∧ (∀ q : ℚ, 0 ≤ q → Btc.toSatoshi q = ⌊q * 100000000⌋)
    ∧ (∀ k : ℤ, Btc.toSatoshi (Btc.fromSatoshi k) = k
        ∧ Btc.fromSatoshi (Btc.toSatoshi (Btc.fromSatoshi k)) = Btc.fromSatoshi k) := by
  have key : ∀ k : ℤ, Btc.toSatoshi (Btc.fromSatoshi k) = k := by
    intro k
    have h : Btc.fromSatoshi k * 100000000 = (k : ℚ) := by
      rw [Btc.fromSatoshi]
      field_simp
    rw [Btc.toSatoshi, Btc.truncToZero, h]
    by_cases hk : (0 : ℚ) ≤ (k : ℚ)
    · rw [if_pos hk, Int.floor_intCast]
    · rw [if_neg hk, Int.ceil_intCast]
  refine ⟨?_, ?_, fun k => ⟨key k, by rw [key k]⟩⟩
  · intro l
    simp [Btc.btcTransactions]
  · intro q hq
    rw [Btc.toSatoshi, Btc.truncToZero, if_pos (by positivity)]

/-- C9 witness for the hypothesis of the second conjunct of the amended
theorem, evaluated at a concrete nonnegative amount. -/
theorem btc_toSatoshi_trunc_roundtrip_witness :
    (0 : ℚ) ≤ 3 / 200000000
    ∧ Btc.toSatoshi (3 / 200000000) = ⌊(3 / 200000000 : ℚ) * 100000000⌋ := by
  constructor
  · norm_num
  · exact btc_toSatoshi_trunc_roundtrip.2.1 (3 / 200000000) (by norm_num)

/-- C10 counterexample: a null result set from the chain API does not surface
an I/O failure — the account-model getReceivedTransactions silently succeeds
with the empty list as an ordinary value. -/
theorem eth_null_result_ok_empty :
    Eth.getReceivedTransactions "0xAbC" (Except.ok none)
      = Except.ok ([] : List Eth.Deposit)
    ∧ (Eth.getReceivedTransactions "0xAbC" (Except.ok none)).isOk = true := by
  exact ⟨rfl, rfl⟩

/-- C10 (amended): a transport-level failure of the chain request propagates
to the caller unchanged (and nothing in the operation retries it), while a
null result set is returned as an ordinary successful empty list. -/
theorem eth_received_response_handling :
    ∀ (address e : String),
      Eth.getReceivedTransactions address (Except.error e) = Except.error e
      ∧ Eth.getReceivedTransactions address (Except.ok none) = Except.ok [] := by
  intro address e
  exact ⟨rfl, rfl⟩

/-- C4: every successfully allocated request is recorded in
successTransactions with the requested amount minus the per-transaction
network fee of gasPrice times 21000 (expressed in ether, so divided by 1e18);
the fee is deducted from the transferred amount, and allocation debits the
wallet with the full requested amount, never the amount plus the fee. -/
theorem eth_prepare_fee_deducted :
    ∀ (wallets : List Eth.Wallet) (toAddresses : List Eth.Request) (gasPrice : ℚ)
      (s : String × Eth.Request),
      s ∈ (Eth.preparePayment wallets toAddresses gasPrice).successTransactions →
      (Eth.preparePayment wallets toAddresses gasPrice).fee
          = gasPrice * 21000 / 1000000000000000000
      ∧ ∃ r ∈ toAddresses, s.2.id = r.id ∧ s.2.toAddress = r.toAddress
          ∧ s.2.amount = r.amount - gasPrice * 21000 / 1000000000000000000 := by
  intro wallets toAddresses gasPrice s hs
  constructor
  · show Eth.transferFee gasPrice = _
    rw [Eth.transferFee]; ring
  · simp only [Eth.preparePayment, List.mem_map] at hs
    obtain ⟨p, hp, rfl⟩ := hs
    refine ⟨p.2, eth_walletsSelect_success_subset toAddresses wallets p hp, rfl, rfl, ?_⟩
    show p.2.amount - Eth.transferFee gasPrice = _
    rw [Eth.transferFee]; ring

/-- C4 witness: a single wallet of balance 5 funds request A of amount 4 at a
gas price of 1 gwei; the recorded amount is 4 minus the fee 0.000021. -/
theorem eth_prepare_fee_deducted_witness :
    (("w1", (⟨"A", "destA", 4 - 21 / 1000000⟩ : Eth.Request))
        ∈ (Eth.preparePayment [⟨"w1", 5⟩] [⟨"A", "destA", 4⟩]
            1000000000).successTransactions)
    ∧ ((Eth.preparePayment [⟨"w1", 5⟩] [⟨"A", "destA", 4⟩] 1000000000).fee
          = 1000000000 * 21000 / 1000000000000000000
        ∧ ∃ r ∈ [(⟨"A", "destA", 4⟩ : Eth.Request)],
            ("w1", (⟨"A", "destA", 4 - 21 / 1000000⟩ : Eth.Request)).2.id = r.id
            ∧ ("w1", (⟨"A", "destA", 4 - 21 / 1000000⟩ : Eth.Request)).2.toAddress
                = r.toAddress
            ∧ ("w1", (⟨"A", "destA", 4 - 21 / 1000000⟩ : Eth.Request)).2.amount
                = r.amount - 1000000000 * 21000 / 1000000000000000000) := by
  have hmem : ("w1", (⟨"A", "destA", 4 - 21 / 1000000⟩ : Eth.Request))
      ∈ (Eth.preparePayment [⟨"w1", 5⟩] [⟨"A", "destA", 4⟩]
          1000000000).successTransactions := by
    norm_num [Eth.preparePayment, Eth.walletsSelect, Eth.assignFirst, Eth.transferFee]
  exact ⟨hmem, eth_prepare_fee_deducted _ _ _ _ hmem⟩

/-- C5: the output-model preparePayment sorts the payment requests ascending
by amount before selection — the transaction list handed to coin selection is
an ascending-by-amount permutation of the caller's requests — so selection
order is determined by amount, not input order: for requests X(5) and Y(2) in
either input order, Y comes before X. -/
theorem btc_prepare_sorted_by_amount :
    (∀ (toAddresses : List Btc.Request) (utxo : List Btc.Utxo)
        (spent : List Btc.SpentOutput),
        ((Btc.preparePaymentArgs toAddresses utxo spent).1.Pairwise
          (fun a b => a.amount ≤ b.amount))
        ∧ (((Btc.preparePaymentArgs toAddresses utxo spent).1.map
            (fun t => (⟨t.id, t.toAddress, t.amount⟩ : Btc.Request))).Perm toAddresses))
    ∧ (Btc.btcTransactions [⟨"X", "destX", 5⟩, ⟨"Y", "destY", 2⟩]
        = [⟨"Y", 2, "destY", 200000000⟩, ⟨"X", 5, "destX", 500000000⟩]
      ∧ Btc.btcTransactions [⟨"Y", "destY", 2⟩, ⟨"X", "destX", 5⟩]
        = [⟨"Y", 2, "destY", 200000000⟩, ⟨"X", 5, "destX", 500000000⟩]) := by
  constructor
  · intro toAddresses utxo spent
    constructor
    · exact List.Pairwise.map _ (fun a b h => h)
        (btc_sortByAmount_sorted toAddresses)
    · have hid : (fun t : Btc.TxOutput => (⟨t.id, t.toAddress, t.amount⟩ : Btc.Request))
          ∘ (fun r : Btc.Request =>
            (⟨r.id, r.amount, r.address, Btc.toSatoshi r.amount⟩ : Btc.TxOutput))
          = id := by
        funext r; cases r; rfl
      show ((Btc.btcTransactions toAddresses).map _).Perm toAddresses
      rw [Btc.btcTransactions, List.map_map, hid, List.map_id]
      exact btc_sortByAmount_perm toAddresses
  · constructor <;>
      norm_num [Btc.btcTransactions, Btc.sortByAmount, Btc.insertByAmount,
        Btc.toSatoshi, Btc.truncToZero]

/-- C6: an unspent output is handed to coin selection as a candidate input if
and only if its confirmation count is strictly positive and it is not in the
caller-supplied already-consumed set identified by (txid, outputIndex); the
candidate carries the output's satoshi amount as its value. -/
theorem btc_candidate_iff :
    ∀ (toAddresses : List Btc.Request) (utxo : List Btc.Utxo)
      (spent : List Btc.SpentOutput) (c : Btc.CandidateInput),
      c ∈ (Btc.preparePaymentArgs toAddresses utxo spent).2
        ↔ ∃ o, o ∈ utxo ∧ 0 < o.confirmations
            ∧ ¬(∃ s, s ∈ spent ∧ s.txid = o.txid ∧ s.vout = o.vout)
            ∧ c = ⟨o.txid, o.vout, o.satoshis, o.confirmations, o.satoshis⟩ := by
  intro toAddresses utxo spent c
  simp only [Btc.preparePaymentArgs, Btc.transformedUtxo, Btc.isSpent,
    List.mem_map, List.mem_filter, Bool.and_eq_true, Bool.not_eq_true',
    List.any_eq_false, Bool.and_eq_false_iff, decide_eq_true_eq, beq_iff_eq]
  constructor
  · rintro ⟨o, ⟨ho, hc, hsp⟩, rfl⟩
    refine ⟨o, ho, hc, ?_, rfl⟩
    rintro ⟨s, hs, h1, h2⟩
    exact hsp s hs ⟨h1, h2⟩
  · rintro ⟨o, ho, hc, hsp, rfl⟩
    refine ⟨o, ⟨ho, hc, ?_⟩, rfl⟩
    intro s hs h
    exact hsp ⟨s, hs, h.1, h.2⟩

/-- C8 counterexample: the account-model classifier does not exclude
self-transfers — a transaction with empty call data whose sender and
recipient both lower-case to the reserve address "0xabc" is returned as a
deposit whose fromAddress equals its reserveAddress. -/
theorem eth_classifier_includes_self_transfer :
    Eth.getReceivedTransactions "0xAbC" (Except.ok (some
        [{ hash := "0xH1", fromAddr := "0xAbC", toAddr := "0xaBc", input := "0x",
           value := 1000000000000000000, gasPrice := 0, confirmations := 12 }]))
      = Except.ok [{ reserveAddress := "0xabc", fromAddress := "0xabc", amount := 1,
                     fee := 0, confirmations := 12, hash := "0xh1" }] := by
  have h1 : strLower "0xAbC" = "0xabc" := by decide
  have h2 : strLower "0xaBc" = "0xabc" := by decide
  have h3 : strLower "0xH1" = "0xh1" := by decide
  norm_num [Eth.getReceivedTransactions, Eth.ethClassify, Eth.ethDepositFilter,
    Eth.ethToDeposit, Eth.transferFee, h1, h2, h3]

/-- C8 (amended): the output-model classifier returns only transactions with
exactly one distinct sending entity, which is not the reserve address itself;
the account-model classifier returns only transactions with empty call data
whose recipient equals the reserve address (case-normalized) — it identifies
the single sender from the transaction's from field but does not exclude
self-transfers. -/
theorem deposit_classifier_sender_spec :
    (∀ (reserveAddress : String) (pages : List (List Btc.RawTx)) (d : Btc.Deposit),
        d ∈ Btc.getReceivedTransactions reserveAddress pages →
        ∃ tx, tx ∈ pages.flatten
          ∧ d = Btc.btcToDeposit reserveAddress tx
          ∧ (tx.vin.map (fun i => i.addr)).dedup.length = 1
          ∧ reserveAddress ∉ tx.vin.map (fun i => i.addr)
          ∧ d.fromAddress ≠ reserveAddress)
    ∧ (∀ (reserveAddress : String) (txs : List Eth.RawTx) (d : Eth.Deposit),
        d ∈ Eth.ethClassify reserveAddress txs →
        ∃ tx, tx ∈ txs ∧ d = Eth.ethToDeposit reserveAddress tx
          ∧ tx.input = "0x" ∧ strLower tx.toAddr = reserveAddress) := by
  constructor
  · intro reserveAddress pages d hd
    rw [Btc.getReceivedTransactions, List.mem_map] at hd
    obtain ⟨tx, htx, rfl⟩ := hd
    rw [List.mem_filter] at htx
    obtain ⟨htx1, htx2⟩ := htx
    have htxmem : tx ∈ pages.flatten := btc_uniqByAux_subset _ _ [] tx htx1
    rw [Btc.btcDepositFilter] at htx2
    simp only [Bool.and_eq_true, Bool.not_eq_true', beq_iff_eq] at htx2
    obtain ⟨⟨hcont, hlen⟩, -⟩ := htx2
    have hnotin : reserveAddress ∉ tx.vin.map (fun i => i.addr) := by
      intro h
      have h2 : (tx.vin.map (fun i => i.addr)).dedup.contains reserveAddress = true :=
        List.elem_iff.mpr (List.mem_dedup.mpr h)
      rw [hcont] at h2
      exact Bool.false_ne_true h2
    have hne : tx.vin.map (fun i => i.addr) ≠ [] := by
      intro h
      rw [h] at hlen
      simp at hlen
    refine ⟨tx, htxmem, rfl, hlen, hnotin, ?_⟩
    cases hvin : tx.vin.map (fun i => i.addr) with
    | nil => exact absurd hvin hne
    | cons a t =>
      have hfrom : (Btc.btcToDeposit reserveAddress tx).fromAddress = a := by
        rw [Btc.btcToDeposit]
        simp [hvin]
      rw [hfrom]
      intro hEq
      exact hnotin (hvin ▸ (hEq ▸ List.mem_cons_self a t))
  · intro reserveAddress txs d hd
    rw [Eth.ethClassify, List.mem_map] at hd
    obtain ⟨tx, htx, rfl⟩ := hd
    rw [List.mem_filter] at htx
    obtain ⟨htx1, htx2⟩ := htx
    rw [Eth.ethDepositFilter] at htx2
    simp only [Bool.and_eq_true, beq_iff_eq] at htx2
    exact ⟨tx, htx1, rfl, htx2.1, htx2.2⟩

/-- C8 witness: a transaction with the single input address "s", one
single-address output paying 2 to the reserve "r" out of 3 coins of input,
is classified as a deposit from "s" with fee 1, and the amended theorem
applies to it. -/
theorem deposit_classifier_sender_spec_witness :
    ((⟨"s", "r", 2, 1, 6, "t1"⟩ : Btc.Deposit)
        ∈ Btc.getReceivedTransactions "r" [[⟨"t1", [⟨"s", 3⟩], [⟨["r"], 2⟩], 6⟩]])
    ∧ ∃ tx, tx ∈ ([[⟨"t1", [⟨"s", 3⟩], [⟨["r"], 2⟩], 6⟩]] : List (List Btc.RawTx)).flatten
        ∧ (⟨"s", "r", 2, 1, 6, "t1"⟩ : Btc.Deposit) = Btc.btcToDeposit "r" tx
        ∧ (tx.vin.map (fun i => i.addr)).dedup.length = 1
        ∧ "r" ∉ tx.vin.map (fun i => i.addr)
        ∧ (⟨"s", "r", 2, 1, 6, "t1"⟩ : Btc.Deposit).fromAddress ≠ "r" := by
  have hfilter : Btc.btcDepositFilter "r" ⟨"t1", [⟨"s", 3⟩], [⟨["r"], 2⟩], 6⟩ = true := by
    decide
  have hone : Btc.btcToDeposit "r" ⟨"t1", [⟨"s", 3⟩], [⟨["r"], 2⟩], 6⟩
      = (⟨"s", "r", 2, 1, 6, "t1"⟩ : Btc.Deposit) := by
    rw [Btc.btcToDeposit]
    norm_num
  have hlist : Btc.getReceivedTransactions "r" [[⟨"t1", [⟨"s", 3⟩], [⟨["r"], 2⟩], 6⟩]]
      = [Btc.btcToDeposit "r" ⟨"t1", [⟨"s", 3⟩], [⟨["r"], 2⟩], 6⟩] := by
    rw [Btc.getReceivedTransactions]
    norm_num [Btc.uniqBy, Btc.uniqByAux, hfilter]
  have hmem : (⟨"s", "r", 2, 1, 6, "t1"⟩ : Btc.Deposit)
      ∈ Btc.getReceivedTransactions "r" [[⟨"t1", [⟨"s", 3⟩], [⟨["r"], 2⟩], 6⟩]] := by
    rw [hlist, hone]
    exact List.mem_singleton.mpr rfl
  exact ⟨hmem, deposit_classifier_sender_spec.1 "r" _ _ hmem⟩
